import Mathlib

/-!
# Verification of the caching / constraint-filtering core

Shallow embedding of the caching and constraint-filtering engine of the
real-estate search repository:

* `_filter_listings_by_constraints` (pf_debug_api.py) — the pure
  `ConstraintFilter`;
* the pagination slice of `search_properties` (test_prop.py lines 59-62);
* the image-URL list serialization in `save_query_and_properties`
  (database.py lines 111-116) and its deserialization in
  `get_properties_for_query` (database.py lines 179-182);
* cache-key normalization of `search_properties` (test_prop.py lines 37-46);
* the SQLite-backed store `database.py` (`find_cached_query`,
  `save_query_and_properties`, `get_properties_for_query`) and the full
  `search_properties` flow (test_prop.py).

Python dictionaries with string keys are modelled as association lists whose
key lists are `Nodup`; Python `None` is `Option.none`; dynamically typed
scalar fields are `PyVal` (int-or-string; the float columns of the schema are
carried as opaque strings, no arithmetic ever touches them).  Machine-level
behaviour of SQLite is modelled at the level the Python code observes it:
`INSERT OR IGNORE`, `INSERT OR REPLACE` (delete conflicting row, append new
row), `UNIQUE` junction pairs, and the commit/rollback discipline of the
`sqlite3` connection.
-/

namespace RealEstate

open List

/-- A dynamically-typed Python scalar as it appears in listing fields and
constraint values: an `int` or a `str`. -/
inductive PyVal where
  | pint (n : Int)
  | pstr (s : String)
  deriving DecidableEq

/-! ## Python string helpers -/

/-- Leading- and trailing-whitespace strip on the character list
(Python `str.strip()` with its default whitespace set). -/
def stripData (l : List Char) : List Char :=
  ((l.dropWhile Char.isWhitespace).reverse.dropWhile Char.isWhitespace).reverse

/-- Python `str.strip()`. -/
def pyStrip (s : String) : String := String.mk (stripData s.data)

/-- Python `str.lower()` (ASCII range, which is all the code compares). -/
def pyLower (s : String) : String := String.mk (s.data.map Char.toLower)

/-- Python `needle in hay` substring test on `str`. -/
def pyContains (needle hay : String) : Bool :=
  hay.data.tails.any (fun t => needle.data.isPrefixOf t)

/-- Decimal digit run to a number; `none` when empty or a non-digit occurs. -/
def digitsToNat (l : List Char) : Option Nat :=
  if l.isEmpty then none
  else l.foldl (fun acc c =>
    acc.bind (fun n => if c.isDigit then some (n * 10 + (c.toNat - 48)) else none))
    (some 0)

/-- Python `int(s)` on a string: optional surrounding whitespace, optional
sign, decimal digits; `none` models the `ValueError`. -/
def pyParseInt (s : String) : Option Int :=
  match stripData s.data with
  | '+' :: rest => (digitsToNat rest).map Int.ofNat
  | '-' :: rest => (digitsToNat rest).map (fun n => -(n : Int))
  | l => (digitsToNat l).map Int.ofNat

/-- Python `int(x)` on a scalar; `none` models the `ValueError`. -/
def pyToInt : PyVal → Option Int
  | .pint n => some n
  | .pstr s => pyParseInt s

/-- Python `x < m` for a scalar `x` against an `int`; `none` models the
`TypeError` raised when `x` is a `str`. -/
def pyLtInt : PyVal → Int → Option Bool
  | .pint n, m => some (decide (n < m))
  | .pstr _, _ => none

/-- Python `x > m` for a scalar `x` against an `int`; `none` models the
`TypeError` raised when `x` is a `str`. -/
def pyGtInt : PyVal → Int → Option Bool
  | .pint n, m => some (decide (n > m))
  | .pstr _, _ => none

/-! ## ConstraintFilter — `_filter_listings_by_constraints` (pf_debug_api.py) -/

/-- The fields of a listing dictionary read by
`_filter_listings_by_constraints`: `p.get("price")`, `p.get("rooms")`,
`p.get("purpose")`.  (`p.get("id")` is read only for logging.) -/
structure Listing where
  price : Option PyVal
  rooms : Option PyVal
  purpose : Option String
  deriving DecidableEq

/-- The constraint values read by `_filter_listings_by_constraints`. -/
structure Constraints where
  min_price : Option PyVal
  max_price : Option PyVal
  beds : Option PyVal
  purpose : Option String
  deriving DecidableEq

/-- Python `(x or '').strip().lower()` applied to the purpose value of either side. -/
def cleanPurpose (o : Option String) : String := pyLower (pyStrip (o.getD ""))

/-- The `min_price` check: skip the listing when `price < int(min_price)`;
a `ValueError` from `int(min_price)` or a `TypeError` from the comparison is
caught and the constraint is not applied (fail-open). -/
def minPriceRejects (minp price : Option PyVal) : Bool :=
  match minp, price with
  | some mv, some pv =>
    match pyToInt mv with
    | some m => (pyLtInt pv m).getD false
    | none => false
  | _, _ => false

/-- The `max_price` check, with the same fail-open exception handling. -/
def maxPriceRejects (maxp price : Option PyVal) : Bool :=
  match maxp, price with
  | some mv, some pv =>
    match pyToInt mv with
    | some m => (pyGtInt pv m).getD false
    | none => false
  | _, _ => false

/-- The exact-bedroom check: skip when `int(rooms) != int(beds)`; a
`ValueError`/`TypeError` from either coercion is caught and the constraint is
not applied. -/
def bedsRejects (beds rooms : Option PyVal) : Bool :=
  match beds, rooms with
  | some bv, some rv =>
    match pyToInt bv, pyToInt rv with
    | some b, some r => r != b
    | _, _ => false
  | _, _ => false

/-- The purpose check (`cp`, `pp` already stripped and lowercased): only the
literal constraint values `"sale"` and `"rent"` are enforced, each by a
substring test against the listing's purpose text; an empty value on either
side disables the check. -/
def purposeRejects (cp pp : String) : Bool :=
  if cp ≠ "" ∧ pp ≠ "" then
    if cp == "sale" then !pyContains "sale" pp
    else if cp == "rent" then !pyContains "rent" pp
    else false
  else false

/-- A listing survives `_filter_listings_by_constraints` iff no applied
constraint skips it (`continue`s in the Python loop). -/
def keepListing (c : Constraints) (p : Listing) : Bool :=
  !minPriceRejects c.min_price p.price &&
  !maxPriceRejects c.max_price p.price &&
  !bedsRejects c.beds p.rooms &&
  !purposeRejects (cleanPurpose c.purpose) (cleanPurpose p.purpose)

/-- The filter `_filter_listings_by_constraints(listings, constraints)`
(pf_debug_api.py lines 201-291); the `skipped` dictionary is logging only. -/
def filterListingsByConstraints (listings : List Listing) (c : Constraints) :
    List Listing :=
  listings.filter (keepListing c)

lemma minPriceRejects_none_left (price : Option PyVal) :
    minPriceRejects none price = false := by cases price <;> rfl

lemma maxPriceRejects_none_left (price : Option PyVal) :
    maxPriceRejects none price = false := by cases price <;> rfl

lemma bedsRejects_none_left (rooms : Option PyVal) :
    bedsRejects none rooms = false := by cases rooms <;> rfl

lemma cleanPurpose_none : cleanPurpose none = "" := rfl

lemma purposeRejects_empty_left (pp : String) : purposeRejects "" pp = false := by
  simp [purposeRejects]

/-- C6: the bedroom constraint of `_filter_listings_by_constraints` is an
exact match, not a minimum: with only a numeric `beds` constraint set and a
numeric room count on the listing, the listing is kept iff the room count
equals the constraint. -/
theorem c6_beds_exact_match (c : Constraints) (l : Listing) (bv rv : PyVal)
    (b r : Int)
    (hmin : c.min_price = none) (hmax : c.max_price = none)
    (hcp : c.purpose = none)
    (hbeds : c.beds = some bv) (hb : pyToInt bv = some b)
    (hrooms : l.rooms = some rv) (hr : pyToInt rv = some r) :
    filterListingsByConstraints [l] c = if r = b then [l] else [] := by
  have hkeep : keepListing c l = (r == b) := by
    unfold keepListing
    rw [hmin, hmax, hcp, hbeds, hrooms, minPriceRejects_none_left,
      maxPriceRejects_none_left, cleanPurpose_none, purposeRejects_empty_left]
    simp [bedsRejects, hb, hr, bne]
  rcases eq_or_ne r b with h | h
  · subst h
    simp [filterListingsByConstraints, List.filter_cons, hkeep]
  · simp [filterListingsByConstraints, List.filter_cons, hkeep, h]

/-- C6 witness: with `beds = 5`, a listing with `rooms = 5` is accepted and a
listing with `rooms = 4` is rejected. -/
theorem c6_beds_exact_match_witness :
    filterListingsByConstraints [⟨none, some (.pint 5), none⟩]
        ⟨none, none, some (.pint 5), none⟩ = [⟨none, some (.pint 5), none⟩] ∧
    filterListingsByConstraints [⟨none, some (.pint 4), none⟩]
        ⟨none, none, some (.pint 5), none⟩ = [] := by
  constructor
  · simpa using c6_beds_exact_match ⟨none, none, some (.pint 5), none⟩
      ⟨none, some (.pint 5), none⟩ (.pint 5) (.pint 5) 5 5
      rfl rfl rfl rfl rfl rfl rfl
  · simpa using c6_beds_exact_match ⟨none, none, some (.pint 5), none⟩
      ⟨none, some (.pint 4), none⟩ (.pint 5) (.pint 4) 5 4
      rfl rfl rfl rfl rfl rfl rfl

/-- C7: the price constraints are fail-open on missing or non-numeric price
data: a listing whose `price` is absent, or is a string (so that the
comparison raises `TypeError`, which is caught), is retained under any
`min_price`/`max_price` constraint. -/
theorem c7_price_fail_open (c : Constraints) (l : Listing)
    (hbeds : c.beds = none) (hcp : c.purpose = none)
    (hprice : l.price = none ∨ ∃ s, l.price = some (.pstr s)) :
    filterListingsByConstraints [l] c = [l] := by
  have hminr : minPriceRejects c.min_price l.price = false := by
    rcases hprice with h | ⟨s, h⟩ <;> rw [h] <;> cases hm : c.min_price with
    | none => rfl
    | some mv => cases hmi : pyToInt mv <;> simp [minPriceRejects, hmi, pyLtInt]
  have hmaxr : maxPriceRejects c.max_price l.price = false := by
    rcases hprice with h | ⟨s, h⟩ <;> rw [h] <;> cases hm : c.max_price with
    | none => rfl
    | some mv => cases hmi : pyToInt mv <;> simp [maxPriceRejects, hmi, pyGtInt]
  have hkeep : keepListing c l = true := by
    unfold keepListing
    rw [hbeds, hcp, hminr, hmaxr, bedsRejects_none_left, cleanPurpose_none,
      purposeRejects_empty_left]
    rfl
  simp [filterListingsByConstraints, List.filter_cons, hkeep]

/-- C7 witness: `min_price = 2000000` retains a listing with no price field. -/
theorem c7_price_fail_open_witness :
    filterListingsByConstraints [⟨none, none, none⟩]
      ⟨some (.pint 2000000), none, none, none⟩ = [⟨none, none, none⟩] :=
  c7_price_fail_open ⟨some (.pint 2000000), none, none, none⟩ ⟨none, none, none⟩
    rfl rfl (Or.inl rfl)

/-- C8 counterexample: the purpose constraint is NOT a general
case-insensitive substring match.  With constraint purpose `"for sale"`
(non-empty, and not a substring of the listing's purpose text `"for rent"`)
the listing is nevertheless kept, because the code only enforces the literal
constraint values `"sale"` and `"rent"`. -/
theorem c8_purpose_counterexample :
    filterListingsByConstraints [⟨none, none, some "for rent"⟩]
        ⟨none, none, none, some "for sale"⟩ = [⟨none, none, some "for rent"⟩] ∧
    pyContains (cleanPurpose (some "for sale")) (cleanPurpose (some "for rent"))
      = false := by
  constructor
  · decide
  · decide

/-- C8 (amended): the purpose constraint is enforced only when the cleaned
constraint value is exactly `"sale"` or exactly `"rent"`; in that case the
listing is kept iff that word appears, case-insensitively, within the
listing's purpose text; with an empty purpose on either side — or any other
constraint value — the constraint is not applied. -/
theorem c8_purpose_amended (c : Constraints) (l : Listing)
    (hmin : c.min_price = none) (hmax : c.max_price = none)
    (hbeds : c.beds = none)
    (hcp : cleanPurpose c.purpose = "sale" ∨ cleanPurpose c.purpose = "rent")
    (hpp : cleanPurpose l.purpose ≠ "") :
    filterListingsByConstraints [l] c =
      if pyContains (cleanPurpose c.purpose) (cleanPurpose l.purpose)
      then [l] else [] := by
  have hpr : purposeRejects (cleanPurpose c.purpose) (cleanPurpose l.purpose)
      = !pyContains (cleanPurpose c.purpose) (cleanPurpose l.purpose) := by
    rcases hcp with h | h <;> rw [h] <;> unfold purposeRejects <;> simp [hpp]
  have hkeep : keepListing c l
      = pyContains (cleanPurpose c.purpose) (cleanPurpose l.purpose) := by
    unfold keepListing
    rw [hmin, hmax, hbeds, minPriceRejects_none_left, maxPriceRejects_none_left,
      bedsRejects_none_left, hpr]
    simp
  cases hc : pyContains (cleanPurpose c.purpose) (cleanPurpose l.purpose) <;>
    simp [filterListingsByConstraints, List.filter_cons, hkeep, hc]

/-- C8 witness: constraint `" SALE "` cleans to `"sale"` and keeps a listing
whose purpose text is `"For Sale"`. -/
theorem c8_purpose_amended_witness :
    cleanPurpose (some " SALE ") = "sale" ∧
    filterListingsByConstraints [⟨none, none, some "For Sale"⟩]
        ⟨none, none, none, some " SALE "⟩ = [⟨none, none, some "For Sale"⟩] := by
  refine ⟨by decide, ?_⟩
  have h := c8_purpose_amended ⟨none, none, none, some " SALE "⟩
    ⟨none, none, some "For Sale"⟩ rfl rfl rfl (Or.inl (by decide)) (by decide)
  rw [h]; decide

/-! ## PaginationView — the slice of the cache-hit path
(test_prop.py lines 59-62):
`start = (page - 1) * limit; end = start + limit;
paginated_properties = properties_data[start:end]` -/

/-- Clamp a Python slice index to `[0, len]`; a negative index counts from
the end of the list. -/
def pyNormIdx (len : Nat) (i : Int) : Nat :=
  if i < 0 then (max 0 ((len : Int) + i)).toNat else min i.toNat len

/-- Python list slicing `l[start:stop]` (step 1): it never fails, it clamps. -/
def pySlice {α : Type} (l : List α) (start stop : Int) : List α :=
  (l.take (pyNormIdx l.length stop)).drop (pyNormIdx l.length start)

/-- The pagination step applied to the cached result sequence. -/
def paginateCached {α : Type} (properties_data : List α) (page limit : Int) :
    List α :=
  pySlice properties_data ((page - 1) * limit) ((page - 1) * limit + limit)

/-- C9 counterexample: invalid pagination arguments do NOT fail: the slice is
total.  `page = 0` silently yields the empty list, and `page = -1` with
`limit = 50` on a 60-element sequence silently yields the first ten elements
(a slice the claim says must never be produced). -/
theorem c9_paginate_counterexample :
    paginateCached [(0:Nat), 1, 2] 0 50 = [] ∧
    paginateCached (List.range 60) (-1) 50 = List.range 10 := by
  constructor
  · decide
  · decide

lemma slice_clip {α : Type} (l : List α) (s k : Nat) :
    (l.take (min (s + k) l.length)).drop (min s l.length) = (l.drop s).take k := by
  rcases le_or_lt s l.length with hs | hs
  · rcases le_or_lt (s + k) l.length with hsk | hsk
    · rw [min_eq_left hs, min_eq_left hsk, List.take_drop, Nat.add_comm s k]
    · rw [min_eq_left hs, min_eq_right (le_of_lt hsk), List.take_length]
      have hlen : (l.drop s).length ≤ k := by
        rw [List.length_drop]; omega
      rw [List.take_of_length_le hlen]
  · rw [min_eq_right (le_of_lt hs), min_eq_right (by omega), List.take_length,
      List.drop_length, List.drop_eq_nil_of_le (by omega), List.take_nil]

/-- C9 (amended): the pagination step never raises and performs no argument
validation; for `page ≥ 1` and `limit ≥ 1` it returns the slice starting at
`(page - 1) * limit` of length at most `limit`, clipped to the sequence
bounds; out-of-range arguments (`page < 1` or `limit ≤ 0`) silently produce
the Python-clamped slice instead of an error. -/
theorem c9_paginate_amended {α : Type} (l : List α) (page limit : Int)
    (hpage : 1 ≤ page) (hlimit : 1 ≤ limit) :
    paginateCached l page limit
      = (l.drop ((page - 1) * limit).toNat).take limit.toNat := by
  have hs0 : 0 ≤ (page - 1) * limit := mul_nonneg (by omega) (by omega)
  have he0 : 0 ≤ (page - 1) * limit + limit := add_nonneg hs0 (by omega)
  unfold paginateCached pySlice pyNormIdx
  rw [if_neg (not_lt.mpr hs0), if_neg (not_lt.mpr he0),
    Int.toNat_add hs0 (by omega)]
  exact slice_clip l ((page - 1) * limit).toNat limit.toNat

/-- C9 witness: valid arguments `page = 2`, `limit = 2` slice out the second
page. -/
theorem c9_paginate_amended_witness :
    paginateCached [(10:Nat), 11, 12, 13, 14] 2 2 = [12, 13] := by
  rw [c9_paginate_amended [(10:Nat), 11, 12, 13, 14] 2 2 (by decide) (by decide)]
  decide

/-! ## Image-URL list serialization
Save side (database.py lines 111-116):
`','.join(all_image_urls) if all_image_urls else ''`.
Fetch side (database.py lines 179-182):
`prop['all_image_urls'].split(',')` when the stored string is truthy,
else `[]`. -/

/-- Python `sep.join(parts)`. -/
def pyJoin (sep : String) : List String → String
  | [] => ""
  | [s] => s
  | s :: rest => s ++ sep ++ pyJoin sep rest

/-- Python `','.join` at the character-list level. -/
def joinCommaData : List (List Char) → List Char
  | [] => []
  | [x] => x
  | x :: rest => x ++ ',' :: joinCommaData rest

/-- Python `s.split(',')` at the character-list level: split at every comma,
keeping empty pieces; `acc` is the reversed current piece. -/
def splitCommaAux : List Char → List Char → List (List Char)
  | [], acc => [acc.reverse]
  | c :: cs, acc =>
    if c = ',' then acc.reverse :: splitCommaAux cs []
    else splitCommaAux cs (c :: acc)

/-- Python `s.split(',')`. -/
def pySplitComma (s : String) : List String :=
  (splitCommaAux s.data []).map String.mk

/-- The storage scalar form of the ordered image-URL list (save side). -/
def serializeImageUrls (urls : List String) : String :=
  if urls.isEmpty then "" else pyJoin "," urls

/-- The deserialization applied by `get_properties_for_query` (fetch side):
an empty (falsy) stored string yields `[]`, never `none`. -/
def deserializeImageUrls (s : String) : List String :=
  if s = "" then [] else pySplitComma s

lemma pyJoin_comma_data (l : List String) :
    (pyJoin "," l).data = joinCommaData (l.map String.data) := by
  induction l with
  | nil => rfl
  | cons s rest ih =>
    cases rest with
    | nil => rfl
    | cons t rest2 =>
      show (s ++ "," ++ pyJoin "," (t :: rest2)).data
        = s.data ++ ',' :: joinCommaData ((t :: rest2).map String.data)
      rw [String.data_append, String.data_append, ih]
      simp

lemma splitCommaAux_no_comma (xs : List Char) (acc : List Char)
    (h : ',' ∉ xs) : splitCommaAux xs acc = [acc.reverse ++ xs] := by
  induction xs generalizing acc with
  | nil => simp [splitCommaAux]
  | cons c cs ih =>
    have hc : ¬ c = ',' := fun hh => h (hh ▸ List.mem_cons_self c cs)
    rw [splitCommaAux, if_neg hc,
      ih (c :: acc) (fun hm => h (List.mem_cons_of_mem c hm))]
    simp

lemma splitCommaAux_append (xs rest : List Char) (acc : List Char)
    (h : ',' ∉ xs) :
    splitCommaAux (xs ++ ',' :: rest) acc
      = (acc.reverse ++ xs) :: splitCommaAux rest [] := by
  induction xs generalizing acc with
  | nil => simp [splitCommaAux]
  | cons c cs ih =>
    have hc : ¬ c = ',' := fun hh => h (hh ▸ List.mem_cons_self c cs)
    rw [List.cons_append, splitCommaAux, if_neg hc,
      ih (c :: acc) (fun hm => h (List.mem_cons_of_mem c hm))]
    simp

lemma splitCommaAux_joinCommaData (l : List (List Char)) (hne : l ≠ [])
    (h : ∀ x ∈ l, ',' ∉ x) :
    splitCommaAux (joinCommaData l) [] = l := by
  induction l with
  | nil => exact absurd rfl hne
  | cons x rest ih =>
    cases rest with
    | nil =>
      show splitCommaAux x [] = [x]
      rw [splitCommaAux_no_comma x [] (h x (List.mem_cons_self x []))]
      simp
    | cons y rest2 =>
      show splitCommaAux (x ++ ',' :: joinCommaData (y :: rest2)) [] = _
      rw [splitCommaAux_append x _ [] (h x (List.mem_cons_self x _)),
        ih (by simp) (fun z hz => h z (List.mem_cons_of_mem x hz))]
      simp

lemma pyJoin_comma_ne_empty (x : String) (rest : List String)
    (hne1 : x :: rest ≠ [""]) : pyJoin "," (x :: rest) ≠ "" := by
  cases rest with
  | nil =>
    intro hcon
    exact hne1 (by rw [show x = pyJoin "," [x] from rfl, hcon])
  | cons y rest2 =>
    intro hcon
    have hdata := congrArg String.data hcon
    rw [pyJoin_comma_data] at hdata
    rw [show joinCommaData ((x :: y :: rest2).map String.data)
        = x.data ++ ',' :: joinCommaData ((y :: rest2).map String.data)
      from rfl] at hdata
    simp at hdata

/-- C3 counterexample: the comma-join/split round trip is lossy on an
image-URL string that itself contains a comma: `["a,b"]` comes back as
`["a", "b"]`. -/
theorem c3_roundtrip_counterexample :
    deserializeImageUrls (serializeImageUrls ["a,b"]) = ["a", "b"] ∧
    (["a", "b"] : List String) ≠ ["a,b"] := by
  constructor
  · decide
  · decide

/-- C3 (amended): serialize→deserialize is the identity on every ordered
list of image-URL strings that contain no comma, except the single-element
list `[""]` (whose serialization is the falsy empty string and therefore
deserializes to `[]`); the empty list round-trips to the empty list, never
to a null value. -/
theorem c3_roundtrip_amended (l : List String)
    (hcomma : ∀ s ∈ l, ',' ∉ s.data) (hne : l ≠ [""]) :
    deserializeImageUrls (serializeImageUrls l) = l := by
  cases l with
  | nil => rfl
  | cons x rest =>
    have hjoin : pyJoin "," (x :: rest) ≠ "" := pyJoin_comma_ne_empty x rest hne
    have hser : serializeImageUrls (x :: rest) = pyJoin "," (x :: rest) := by
      simp [serializeImageUrls]
    rw [hser]
    unfold deserializeImageUrls
    rw [if_neg hjoin]
    unfold pySplitComma
    rw [pyJoin_comma_data,
      splitCommaAux_joinCommaData ((x :: rest).map String.data) (by simp)
        (by
          intro xd hm
          obtain ⟨s, hs, rfl⟩ := List.mem_map.mp hm
          exact hcomma s hs),
      List.map_map]
    have hid : (String.mk ∘ String.data) = id := funext (fun s => rfl)
    rw [hid, List.map_id]

/-- C3 witness: `["a", "b", "c"]` round-trips unchanged. -/
theorem c3_roundtrip_amended_witness :
    deserializeImageUrls (serializeImageUrls ["a", "b", "c"]) = ["a", "b", "c"] :=
  c3_roundtrip_amended ["a", "b", "c"] (by decide) (by decide)

/-! ## QueryNormalizer — cache-key construction (test_prop.py lines 37-46) -/

/-- A value in the caller's filter mapping: a string, an int, or a list of
strings (multi-valued filters such as `beds=['3','4']`). -/
inductive FilterVal where
  | vstr (s : String)
  | vint (n : Int)
  | vlist (l : List String)
  deriving DecidableEq

/-- Python truthiness of a filter value. -/
def FilterVal.truthy : FilterVal → Bool
  | .vstr s => s != ""
  | .vint n => n != 0
  | .vlist l => !l.isEmpty

/-- A filter mapping: a Python dict with string keys, i.e. an association
list whose key list is `Nodup`. -/
abbrev Filters := List (String × FilterVal)

/-- Step 1 of key preparation (test_prop.py line 37):
`{k: v for k, v in filters.items() if v and v != ['']}`. -/
def cleanFilters (filters : Filters) : Filters :=
  filters.filter (fun kv => kv.2.truthy && kv.2 != FilterVal.vlist [""])

/-- Python dict assignment `d[k] = v`: replace in place when the key exists,
append otherwise. -/
def setKey (l : Filters) (k : String) (v : FilterVal) : Filters :=
  if l.any (fun kv => kv.1 == k) then
    l.map (fun kv => if kv.1 == k then (k, v) else kv)
  else l ++ [(k, v)]

/-- Python `d.get(k)`. -/
def getVal (l : Filters) (k : String) : Option FilterVal :=
  (l.find? (fun kv => kv.1 == k)).map Prod.snd

/-- Lexicographic code-point comparison of Python strings (the order
`sorted` uses), on the character lists. -/
def lexLE : List Char → List Char → Bool
  | [], _ => true
  | _ :: _, [] => false
  | c :: cs, d :: ds =>
    if c == d then lexLE cs ds else decide (c.toNat < d.toNat)

/-- By-key comparison of two filter items.  Python's `sorted` compares the
whole `(key, value)` tuples, but dict keys are distinct, so the value side
is never consulted. -/
def keyLE (a b : String × FilterVal) : Bool := lexLE a.1.data b.1.data

/-- Stable insertion of one pair into a by-key sorted list. -/
def insertPair (p : String × FilterVal) : Filters → Filters
  | [] => [p]
  | q :: rest => if keyLE p q then p :: q :: rest else q :: insertPair p rest

/-- Python `sorted(cleaned_filters.items())` (test_prop.py line 45): with distinct
keys, any by-key sort computes the same list as Python's sort. -/
def sortPairs : Filters → Filters
  | [] => []
  | p :: rest => insertPair p (sortPairs rest)

/-- UTF-8 bytes of a character, as numbers. -/
def utf8Bytes (c : Char) : List Nat :=
  let n := c.toNat
  if n < 128 then [n]
  else if n < 2048 then [192 + n / 64, 128 + n % 64]
  else if n < 65536 then [224 + n / 4096, 128 + (n / 64) % 64, 128 + n % 64]
  else [240 + n / 262144, 128 + (n / 4096) % 64, 128 + (n / 64) % 64,
    128 + n % 64]

/-- Upper-case hexadecimal digit. -/
def hexDigitUpper (n : Nat) : Char :=
  if n < 10 then Char.ofNat (48 + n) else Char.ofNat (55 + n)

/-- The characters `urllib.parse.quote_plus` leaves unescaped by default:
ASCII letters, digits, and `_ . - ~`. -/
def isUrlSafe (c : Char) : Bool :=
  (65 ≤ c.toNat && c.toNat ≤ 90) || (97 ≤ c.toNat && c.toNat ≤ 122) ||
    (48 ≤ c.toNat && c.toNat ≤ 57) ||
    c.toNat == 95 || c.toNat == 46 || c.toNat == 45 || c.toNat == 126

/-- Python `urllib.parse.quote_plus` on one character: space becomes `+`, safe
characters pass through, anything else is percent-escaped bytewise. -/
def quoteChar (c : Char) : List Char :=
  if c == ' ' then ['+']
  else if isUrlSafe c then [c]
  else (utf8Bytes c).flatMap
    (fun b => ['%', hexDigitUpper (b / 16), hexDigitUpper (b % 16)])

/-- Python `urllib.parse.quote_plus`. -/
def quotePlus (s : String) : String := String.mk (s.data.flatMap quoteChar)

/-- One `key=value` segment of the canonical string. -/
def encodeSegment (k v : String) : String := quotePlus k ++ "=" ++ quotePlus v

/-- The segments one pair contributes under `urlencode(..., doseq=True)`:
a string value is quoted directly, any other scalar goes through `str()`,
and a list contributes one segment per element, order preserved. -/
def encodePair (kv : String × FilterVal) : List String :=
  match kv.2 with
  | .vstr s => [encodeSegment kv.1 s]
  | .vint n => [encodeSegment kv.1 (toString n)]
  | .vlist l => l.map (fun e => encodeSegment kv.1 e)

/-- Python `urllib.parse.urlencode(pairs, doseq=True)` (test_prop.py line 46). -/
def urlencode (pairs : Filters) : String :=
  pyJoin "&" (pairs.flatMap encodePair)

/-- Steps 1-2 of key preparation: cleaned filters with `page` and `limit`
injected (test_prop.py lines 37-41). -/
def cleanedKey (filters : Filters) (page limit : Int) : Filters :=
  setKey (setKey (cleanFilters filters) "page" (.vint page)) "limit"
    (.vint limit)

/-- The canonical cache-key string of `search_properties`
(test_prop.py lines 37-46). -/
def makeQueryString (filters : Filters) (page limit : Int) : String :=
  urlencode (sortPairs (cleanedKey filters page limit))

lemma perm_any {l₁ l₂ : Filters} (h : l₁ ~ l₂)
    (p : String × FilterVal → Bool) : l₁.any p = l₂.any p := by
  have hiff : (l₁.any p = true) ↔ (l₂.any p = true) := by
    simp only [List.any_eq_true]
    constructor <;> rintro ⟨x, hx, hpx⟩
    · exact ⟨x, h.mem_iff.mp hx, hpx⟩
    · exact ⟨x, h.mem_iff.mpr hx, hpx⟩
  cases hb₁ : l₁.any p <;> cases hb₂ : l₂.any p <;> simp_all

lemma setKey_perm {l₁ l₂ : Filters} (h : l₁ ~ l₂) (k : String)
    (v : FilterVal) : setKey l₁ k v ~ setKey l₂ k v := by
  unfold setKey
  rw [perm_any h (fun kv => kv.1 == k)]
  split
  · exact h.map _
  · exact h.append_right _

lemma map_fst_setKey (l : Filters) (k : String) (v : FilterVal) :
    (setKey l k v).map Prod.fst =
      if l.any (fun kv => kv.1 == k) then l.map Prod.fst
      else l.map Prod.fst ++ [k] := by
  unfold setKey
  split
  · rw [List.map_map]
    apply List.map_congr_left
    intro kv _
    by_cases hkv : kv.1 == k
    · simp only [Function.comp_apply, if_pos hkv]
      exact (eq_of_beq hkv).symm
    · simp only [Function.comp_apply, if_neg hkv]
  · simp

lemma nodup_keys_setKey (l : Filters) (k : String) (v : FilterVal)
    (h : (l.map Prod.fst).Nodup) : ((setKey l k v).map Prod.fst).Nodup := by
  rw [map_fst_setKey]
  split
  · exact h
  · next hany =>
    refine h.append (List.nodup_singleton k) ?_
    intro a ha hk
    rw [List.mem_singleton] at hk
    subst hk
    obtain ⟨kv, hkv, rfl⟩ := List.mem_map.mp ha
    exact hany (List.any_eq_true.mpr ⟨kv, hkv, beq_self_eq_true _⟩)

lemma nodup_keys_cleanFilters (f : Filters) (h : (f.map Prod.fst).Nodup) :
    ((cleanFilters f).map Prod.fst).Nodup :=
  h.sublist ((List.filter_sublist f).map Prod.fst)

lemma lexLE_total (x y : List Char) : lexLE x y = true ∨ lexLE y x = true := by
  induction x generalizing y with
  | nil => left; rfl
  | cons c cs ih =>
    cases y with
    | nil => right; rfl
    | cons d ds =>
      by_cases hcd : c = d
      · subst hcd
        rcases ih ds with h | h
        · left; simpa [lexLE] using h
        · right; simpa [lexLE] using h
      · have hb : (c == d) = false := beq_eq_false_iff_ne.mpr hcd
        have hb2 : (d == c) = false := beq_eq_false_iff_ne.mpr (Ne.symm hcd)
        have hne : c.toNat ≠ d.toNat := fun h =>
          hcd (Char.eq_of_val_eq (UInt32.toNat.inj h))
        rcases Nat.lt_or_ge c.toNat d.toNat with h | h
        · left; simp [lexLE, hb, h]
        · right; simp [lexLE, hb2]; omega

lemma lexLE_trans {x y z : List Char} (h1 : lexLE x y = true)
    (h2 : lexLE y z = true) : lexLE x z = true := by
  induction x generalizing y z with
  | nil => rfl
  | cons c cs ih =>
    cases y with
    | nil => simp [lexLE] at h1
    | cons d ds =>
      cases z with
      | nil => simp [lexLE] at h2
      | cons e es =>
        by_cases hcd : c = d
        · subst hcd
          rw [show lexLE (c :: cs) (c :: ds)
              = lexLE cs ds from by simp [lexLE]] at h1
          by_cases hce : c = e
          · subst hce
            rw [show lexLE (c :: ds) (c :: es)
                = lexLE ds es from by simp [lexLE]] at h2
            rw [show lexLE (c :: cs) (c :: es)
                = lexLE cs es from by simp [lexLE]]
            exact ih h1 h2
          · have hb : (c == e) = false := beq_eq_false_iff_ne.mpr hce
            rw [show lexLE (c :: ds) (e :: es)
                = decide (c.toNat < e.toNat) from by simp [lexLE, hb]] at h2
            rw [show lexLE (c :: cs) (e :: es)
                = decide (c.toNat < e.toNat) from by simp [lexLE, hb]]
            exact h2
        · have hb : (c == d) = false := beq_eq_false_iff_ne.mpr hcd
          rw [show lexLE (c :: cs) (d :: ds)
              = decide (c.toNat < d.toNat) from by simp [lexLE, hb]] at h1
          have hcd2 : c.toNat < d.toNat := of_decide_eq_true h1
          by_cases hde : d = e
          · subst hde
            rw [show lexLE (c :: cs) (d :: es)
                = decide (c.toNat < d.toNat) from by simp [lexLE, hb]]
            exact h1
          · have hb2 : (d == e) = false := beq_eq_false_iff_ne.mpr hde
            rw [show lexLE (d :: ds) (e :: es)
                = decide (d.toNat < e.toNat) from by simp [lexLE, hb2]] at h2
            have hde2 : d.toNat < e.toNat := of_decide_eq_true h2
            have hce : (c == e) = false := beq_eq_false_iff_ne.mpr
              (fun h => by subst h; omega)
            rw [show lexLE (c :: cs) (e :: es)
                = decide (c.toNat < e.toNat) from by simp [lexLE, hce]]
            exact decide_eq_true (by omega)

lemma lexLE_antisymm {x y : List Char} (h1 : lexLE x y = true)
    (h2 : lexLE y x = true) : x = y := by
  induction x generalizing y with
  | nil =>
    cases y with
    | nil => rfl
    | cons d ds => simp [lexLE] at h2
  | cons c cs ih =>
    cases y with
    | nil => simp [lexLE] at h1
    | cons d ds =>
      by_cases hcd : c = d
      · subst hcd
        rw [show lexLE (c :: cs) (c :: ds)
            = lexLE cs ds from by simp [lexLE]] at h1
        rw [show lexLE (c :: ds) (c :: cs)
            = lexLE ds cs from by simp [lexLE]] at h2
        rw [ih h1 h2]
      · have hb : (c == d) = false := beq_eq_false_iff_ne.mpr hcd
        have hb2 : (d == c) = false := beq_eq_false_iff_ne.mpr (Ne.symm hcd)
        rw [show lexLE (c :: cs) (d :: ds)
            = decide (c.toNat < d.toNat) from by simp [lexLE, hb]] at h1
        rw [show lexLE (d :: ds) (c :: cs)
            = decide (d.toNat < c.toNat) from by simp [lexLE, hb2]] at h2
        have := of_decide_eq_true h1
        have := of_decide_eq_true h2
        omega

lemma insertPair_perm (p : String × FilterVal) (l : Filters) :
    insertPair p l ~ p :: l := by
  induction l with
  | nil => exact Perm.refl _
  | cons q rest ih =>
    unfold insertPair
    split
    · exact Perm.refl _
    · exact (ih.cons q).trans (Perm.swap p q rest)

lemma sortPairs_perm (l : Filters) : sortPairs l ~ l := by
  induction l with
  | nil => exact Perm.refl _
  | cons p rest ih =>
    exact (insertPair_perm p (sortPairs rest)).trans (ih.cons p)

lemma insertPair_pairwise (p : String × FilterVal) (l : Filters)
    (h : l.Pairwise (fun a b => keyLE a b = true)) :
    (insertPair p l).Pairwise (fun a b => keyLE a b = true) := by
  induction l with
  | nil => exact List.pairwise_singleton _ _
  | cons q rest ih =>
    unfold insertPair
    split
    · next hpq =>
      apply Pairwise.cons
      · intro b hb
        rcases mem_cons.mp hb with rfl | hbr
        · exact hpq
        · exact lexLE_trans hpq ((pairwise_cons.mp h).1 b hbr)
      · exact h
    · next hpq =>
      have hqp : keyLE q p = true := by
        rcases lexLE_total p.1.data q.1.data with h1 | h1
        · exact absurd h1 hpq
        · exact h1
      obtain ⟨hq, hrest⟩ := pairwise_cons.mp h
      apply Pairwise.cons
      · intro b hb
        rcases mem_cons.mp ((insertPair_perm p rest).mem_iff.mp hb) with
          rfl | hbr
        · exact hqp
        · exact hq b hbr
      · exact ih hrest

lemma sortPairs_pairwise (l : Filters) :
    (sortPairs l).Pairwise (fun a b => keyLE a b = true) := by
  induction l with
  | nil => exact Pairwise.nil
  | cons p rest ih => exact insertPair_pairwise p _ ih

lemma sorted_strict_sortPairs (l : Filters) (hl : (l.map Prod.fst).Nodup) :
    (sortPairs l).Pairwise
      (fun a b : String × FilterVal =>
        (keyLE a b = true ∧ a.1 ≠ b.1) ∨ a = b) := by
  have hs := sortPairs_pairwise l
  have hnd : ((sortPairs l).map Prod.fst).Nodup :=
    (((sortPairs_perm l).map Prod.fst).nodup_iff).mpr hl
  have hne : (sortPairs l).Pairwise (fun a b => a.1 ≠ b.1) :=
    List.pairwise_map.mp hnd
  exact List.Pairwise.imp₂ (fun a b h1 h2 => Or.inl ⟨h1, h2⟩) hs hne

lemma sortPairs_eq_of_perm {l₁ l₂ : Filters} (hp : l₁ ~ l₂)
    (h₁ : (l₁.map Prod.fst).Nodup) : sortPairs l₁ = sortPairs l₂ := by
  have h₂ : (l₂.map Prod.fst).Nodup := ((hp.map Prod.fst).nodup_iff).mp h₁
  haveI : IsAntisymm (String × FilterVal)
      (fun a b => (keyLE a b = true ∧ a.1 ≠ b.1) ∨ a = b) := by
    constructor
    rintro a b (⟨ha, hane⟩ | rfl) hba
    · rcases hba with ⟨hb, _⟩ | rfl
      · exact absurd (congrArg String.mk (lexLE_antisymm ha hb)) hane
      · rfl
    · rfl
  exact List.eq_of_perm_of_sorted
    ((sortPairs_perm l₁).trans (hp.trans (sortPairs_perm l₂).symm))
    (sorted_strict_sortPairs l₁ h₁) (sorted_strict_sortPairs l₂ h₂)

/-- C4: key normalization is deterministic and order-insensitive: if two
filter dicts clean (drop falsy values and the `['']` list) to the same
key/value pairs, they canonicalize — with the same page and limit — to the
same cache-key string, whatever the insertion order of their keys. -/
theorem c4_normalize_deterministic (f₁ f₂ : Filters) (page limit : Int)
    (h₁ : (f₁.map Prod.fst).Nodup) (h₂ : (f₂.map Prod.fst).Nodup)
    (hperm : cleanFilters f₁ ~ cleanFilters f₂) :
    makeQueryString f₁ page limit = makeQueryString f₂ page limit := by
  have hpk : cleanedKey f₁ page limit ~ cleanedKey f₂ page limit :=
    setKey_perm (setKey_perm hperm "page" (.vint page)) "limit" (.vint limit)
  have hnd : ((cleanedKey f₁ page limit).map Prod.fst).Nodup :=
    nodup_keys_setKey _ _ _
      (nodup_keys_setKey _ _ _ (nodup_keys_cleanFilters f₁ h₁))
  unfold makeQueryString
  rw [sortPairs_eq_of_perm hpk hnd]

/-- C4 witness: two filter maps listing the same non-falsy pairs in a
different key order (one with a falsy `beds=['']`, the other with a falsy
`min_area=0`) produce the identical canonical key. -/
theorem c4_normalize_deterministic_witness :
    cleanFilters [("purpose", FilterVal.vstr "sale"),
        ("query", FilterVal.vstr "dubai"), ("beds", FilterVal.vlist [""])] ~
      cleanFilters [("query", FilterVal.vstr "dubai"),
        ("min_area", FilterVal.vint 0), ("purpose", FilterVal.vstr "sale")] ∧
    makeQueryString [("purpose", FilterVal.vstr "sale"),
        ("query", FilterVal.vstr "dubai"), ("beds", FilterVal.vlist [""])]
        1 50 =
      makeQueryString [("query", FilterVal.vstr "dubai"),
        ("min_area", FilterVal.vint 0), ("purpose", FilterVal.vstr "sale")]
        1 50 := by
  refine ⟨by decide, ?_⟩
  exact c4_normalize_deterministic _ _ 1 50 (by decide) (by decide) (by decide)

/-! ## CacheStore — database.py

`cached_queries(id AUTOINCREMENT, query_string UNIQUE)`,
`cached_properties(id TEXT PRIMARY KEY, …)`,
`query_property_map(query_id, property_id, UNIQUE(query_id, property_id))`.

The `created_at` columns are filled by SQLite defaults, not by the code
under verification, and are omitted.  The two REAL columns (`latitude`,
`longitude`) and `down_payment_percentage` are carried as opaque strings —
no code in the core ever computes with them. -/

/-- The sixteen pass-through fields of a property dictionary, exactly the
ones `save_query_and_properties` reads with `prop.get(...)` besides `id`
and `all_image_urls`. -/
structure PropFields where
  title : Option String
  price : Option Int
  area : Option Int
  rooms : Option Int
  baths : Option Int
  purpose : Option String
  completion_status : Option String
  latitude : Option String
  longitude : Option String
  location_name : Option String
  cover_photo_url : Option String
  agency_name : Option String
  contact_name : Option String
  mobile_number : Option String
  whatsapp_number : Option String
  down_payment_percentage : Option String
  deriving DecidableEq

/-- A listing dictionary as produced by the listing-source collaborator
(`property_finder.property_finder_search`): a numeric external id, the
pass-through fields, and the ordered image-URL list. -/
structure PropIn where
  id : Nat
  fields : PropFields
  all_image_urls : List String
  deriving DecidableEq

/-- A row of `cached_properties`: the id is `str(prop.get('id'))` and the
image-URL list is serialized to one TEXT column. -/
structure PropRow where
  id : String
  fields : PropFields
  all_image_urls : String
  deriving DecidableEq

/-- A property dictionary returned by `get_properties_for_query`:
`dict(row)` with `all_image_urls` split back into a list. -/
structure FetchedProp where
  id : String
  fields : PropFields
  all_image_urls : List String
  deriving DecidableEq

/-- The persistent store: the three relations plus the AUTOINCREMENT
counter of `cached_queries`.  Junction rows also carry an AUTOINCREMENT id,
but no code reads it, so links are bare pairs kept in insertion order. -/
structure Store where
  queries : List (Nat × String)
  props : List PropRow
  links : List (Nat × String)
  nextQueryId : Nat
  deriving DecidableEq

/-- The store created by `init_db` on a fresh database file. -/
def emptyStore : Store := ⟨[], [], [], 1⟩

/-- Lookup `find_cached_query(query_string)` (database.py lines 83-89):
`SELECT id FROM cached_queries WHERE query_string = ?`, `None` on no row. -/
def find_cached_query (s : Store) (query_string : String) : Option Nat :=
  (s.queries.find? (fun q => q.2 == query_string)).map Prod.fst

/-- The row `save_query_and_properties` writes for one property dictionary
(database.py lines 110-145): `str(prop.get('id'))`, the pass-through
fields, and the comma-joined image-URL list. -/
def toRow (p : PropIn) : PropRow :=
  ⟨toString p.id, p.fields, serializeImageUrls p.all_image_urls⟩

/-- SQLite `INSERT OR IGNORE INTO cached_queries (query_string) VALUES (?)`:
no-op when the UNIQUE query string exists, else a fresh AUTOINCREMENT row. -/
def insertQuery (s : Store) (query_string : String) : Store :=
  if s.queries.any (fun q => q.2 == query_string) then s
  else { s with queries := s.queries ++ [(s.nextQueryId, query_string)],
                nextQueryId := s.nextQueryId + 1 }

/-- SQLite `INSERT OR REPLACE INTO cached_properties …`: it deletes the row
with the conflicting PRIMARY KEY and inserts the new row. -/
def upsertProp (l : List PropRow) (row : PropRow) : List PropRow :=
  (l.filter (fun r => r.id != row.id)) ++ [row]

/-- SQLite `INSERT OR IGNORE INTO query_property_map (query_id, property_id)`:
no-op when the UNIQUE pair exists. -/
def insertLink (l : List (Nat × String)) (qid : Nat) (pid : String) :
    List (Nat × String) :=
  if (qid, pid) ∈ l then l else l ++ [(qid, pid)]

/-- One iteration of the property loop of `save_query_and_properties`
(database.py lines 110-151): upsert the property row, then insert the
junction pair. -/
def saveStep (qid : Nat) (st : Store) (p : PropIn) : Store :=
  { st with props := upsertProp st.props (toRow p),
            links := insertLink st.links qid (toString p.id) }

/-- Save `save_query_and_properties(query_string, properties)`
(database.py lines 92-159), success path: insert-or-ignore the query row,
re-select its id, then run the property loop.  (The id re-select always
finds the row just ensured, so the `getD` default is never read.) -/
def save_query_and_properties (s : Store) (query_string : String)
    (properties : List PropIn) : Store :=
  let s1 := insertQuery s query_string
  let query_id := (find_cached_query s1 query_string).getD 0
  properties.foldl (saveStep query_id) s1

/-- Outcome of a save under fault injection: either the final commit
succeeded, or an exception was re-raised after `db.rollback()`; in both
cases the payload is the state that remains durable. -/
inductive SaveOutcome where
  | ok (persisted : Store)
  | failed (persisted : Store)
  deriving DecidableEq

/-- The property loop with a fault injected before processing the property
`failAt` positions ahead: loop work is uncommitted transaction state
(`mem`), discarded by the rollback, so a failure leaves only `durable` —
the state already committed by the `db.commit()` of database.py line 103. -/
def saveLoopFail (durable : Store) (qid : Nat) :
    Store → Nat → List PropIn → SaveOutcome
  | mem, _, [] => .ok mem
  | _, 0, _ :: _ => .failed durable
  | mem, k + 1, p :: rest => saveLoopFail durable qid (saveStep qid mem p) k rest

/-- Run `save_query_and_properties` with a failure injected at property index
`failAt` (an exception from the SQLite insert): the query insert has
already been committed separately (database.py line 103), the loop runs in
the following transaction, `db.rollback()` discards it, and the error is
re-raised (database.py lines 156-159). -/
def save_with_failure (s : Store) (query_string : String)
    (properties : List PropIn) (failAt : Nat) : SaveOutcome :=
  let durable := insertQuery s query_string
  let query_id := (find_cached_query durable query_string).getD 0
  saveLoopFail durable query_id durable failAt properties

/-- A concrete property dictionary used by concrete-input theorems. -/
def sampleFields : PropFields :=
  ⟨some "Villa", some 1000000, some 400, some 5, some 4, some "for-sale",
    none, none, none, some "Dubai", none, none, none, none, none, none⟩

/-- A concrete listing with external id 101. -/
def sampleProp : PropIn := ⟨101, sampleFields, ["u1", "u2"]⟩

/-- C1: `save` is NOT all-or-nothing.  The query insert is committed on its
own (`db.commit()`, database.py line 103) before the property loop, so when
the loop fails the rollback only reaches back to that commit: saving one
property into an empty store with the insert of property 0 raising leaves
`cached_queries = [(1, "k")]` durable — a store different from the pre-call
empty one — while the error is re-raised. -/
theorem c1_save_partial_persist :
    save_with_failure emptyStore "k" [sampleProp] 0 =
      .failed ⟨[(1, "k")], [], [], 2⟩ ∧
    (⟨[(1, "k")], [], [], 2⟩ : Store) ≠ emptyStore := by
  constructor
  · decide
  · decide

/-! ### Idempotence of `save_query_and_properties` -/

/-- The ids of a list of property rows. -/
def rowIds (rows : List PropRow) : List String := rows.map (fun r => r.id)

lemma store_eq_of_fields {a b : Store} (h1 : a.queries = b.queries)
    (h2 : a.props = b.props) (h3 : a.links = b.links)
    (h4 : a.nextQueryId = b.nextQueryId) : a = b := by
  cases a; cases b; simp_all

lemma foldl_saveStep_fields (qid : Nat) (P : List PropIn) (st : Store) :
    (P.foldl (saveStep qid) st).queries = st.queries ∧
    (P.foldl (saveStep qid) st).nextQueryId = st.nextQueryId ∧
    (P.foldl (saveStep qid) st).props
      = (P.map toRow).foldl upsertProp st.props ∧
    (P.foldl (saveStep qid) st).links
      = (P.map (fun p => toString p.id)).foldl
          (fun l pid => insertLink l qid pid) st.links := by
  induction P generalizing st with
  | nil => exact ⟨rfl, rfl, rfl, rfl⟩
  | cons p rest ih =>
    have h := ih (saveStep qid st p)
    simp only [List.foldl_cons, List.map_cons]
    exact ⟨h.1, h.2.1, h.2.2.1, h.2.2.2⟩

lemma insertQuery_has (s : Store) (key : String) :
    (insertQuery s key).queries.any (fun q => q.2 == key) = true := by
  unfold insertQuery
  split
  · assumption
  · simp

lemma foldl_upsertProp_closed (rows : List PropRow) (l : List PropRow) :
    rows.foldl upsertProp l =
      l.filter (fun r => !(rowIds rows).contains r.id)
        ++ rows.foldl upsertProp [] := by
  induction rows generalizing l with
  | nil => simp [rowIds]
  | cons row rest ih =>
    rw [List.foldl_cons, ih (upsertProp l row), List.foldl_cons,
      ih (upsertProp [] row)]
    have hsplit : (upsertProp l row).filter
        (fun r => !(rowIds rest).contains r.id)
        = l.filter (fun r => !(rowIds (row :: rest)).contains r.id)
          ++ (upsertProp [] row).filter
              (fun r => !(rowIds rest).contains r.id) := by
      unfold upsertProp
      rw [List.filter_append, List.filter_filter]
      congr 1
      apply List.filter_congr
      intro r _
      rw [show rowIds (row :: rest) = row.id :: rowIds rest from rfl,
        List.contains_cons, Bool.not_or, Bool.and_comm]
      rfl
    rw [hsplit, List.append_assoc]

lemma mem_foldl_upsertProp {r : PropRow} (rows : List PropRow)
    (l : List PropRow) (h : r ∈ rows.foldl upsertProp l) :
    r ∈ l ∨ r.id ∈ rowIds rows := by
  induction rows generalizing l with
  | nil => exact Or.inl h
  | cons row rest ih =>
    rcases ih (upsertProp l row) h with hmem | hid
    · unfold upsertProp at hmem
      rcases List.mem_append.mp hmem with h1 | h1
      · exact Or.inl (List.mem_of_mem_filter h1)
      · rw [List.mem_singleton] at h1
        subst h1
        exact Or.inr (List.mem_cons_self _ _)
    · exact Or.inr (List.mem_cons_of_mem _ hid)

lemma foldl_upsertProp_idem (rows : List PropRow) (l : List PropRow) :
    rows.foldl upsertProp (rows.foldl upsertProp l)
      = rows.foldl upsertProp l := by
  rw [foldl_upsertProp_closed rows (rows.foldl upsertProp l),
    foldl_upsertProp_closed rows l, List.filter_append, List.filter_filter]
  have h1 : l.filter (fun a =>
        (!(rowIds rows).contains a.id) && !(rowIds rows).contains a.id)
      = l.filter (fun r => !(rowIds rows).contains r.id) := by
    apply List.filter_congr
    intro r _
    rw [Bool.and_self]
  have h2 : (rows.foldl upsertProp []).filter
      (fun r => !(rowIds rows).contains r.id) = [] := by
    rw [List.filter_eq_nil_iff]
    intro r hr
    have hid : r.id ∈ rowIds rows := by
      rcases mem_foldl_upsertProp rows [] hr with hin | hid
      · cases hin
      · exact hid
    simp [hid]
  rw [h1, h2, List.append_nil]

lemma mem_insertLink (x : Nat × String) (l : List (Nat × String))
    (qid : Nat) (pid : String) (h : x ∈ l) : x ∈ insertLink l qid pid := by
  unfold insertLink
  split
  · exact h
  · exact List.mem_append_left _ h

lemma mem_foldl_insertLink_mono (x : Nat × String) (qid : Nat)
    (pids : List String) (l : List (Nat × String)) (h : x ∈ l) :
    x ∈ pids.foldl (fun acc pid => insertLink acc qid pid) l := by
  induction pids generalizing l with
  | nil => exact h
  | cons pid rest ih => exact ih _ (mem_insertLink x l qid pid h)

lemma mem_foldl_insertLink_self (qid : Nat) (pids : List String)
    (l : List (Nat × String)) {pid : String} :
    pid ∈ pids → (qid, pid) ∈ pids.foldl (fun acc q => insertLink acc qid q) l := by
  induction pids generalizing l with
  | nil => intro h; cases h
  | cons q rest ih =>
    intro h
    rw [List.foldl_cons]
    rcases List.mem_cons.mp h with rfl | hmem
    · apply mem_foldl_insertLink_mono
      unfold insertLink
      split
      · assumption
      · exact List.mem_append_right _ (List.mem_singleton.mpr rfl)
    · exact ih (insertLink l qid q) hmem

lemma foldl_insertLink_of_all_mem (qid : Nat) (pids : List String)
    (l : List (Nat × String)) (h : ∀ pid ∈ pids, (qid, pid) ∈ l) :
    pids.foldl (fun acc pid => insertLink acc qid pid) l = l := by
  induction pids with
  | nil => rfl
  | cons pid rest ih =>
    rw [List.foldl_cons,
      show insertLink l qid pid = l from
        if_pos (h pid (List.mem_cons_self _ _))]
    exact ih (fun q hq => h q (List.mem_cons_of_mem _ hq))

lemma insertQuery_of_present (s : Store) (key : String)
    (h : s.queries.any (fun q => q.2 == key) = true) :
    insertQuery s key = s := by
  unfold insertQuery
  rw [if_pos h]

lemma save_queries (s : Store) (key : String) (P : List PropIn) :
    (save_query_and_properties s key P).queries
      = (insertQuery s key).queries :=
  (foldl_saveStep_fields ((find_cached_query (insertQuery s key) key).getD 0)
    P (insertQuery s key)).1

lemma save_nextQueryId (s : Store) (key : String) (P : List PropIn) :
    (save_query_and_properties s key P).nextQueryId
      = (insertQuery s key).nextQueryId :=
  (foldl_saveStep_fields ((find_cached_query (insertQuery s key) key).getD 0)
    P (insertQuery s key)).2.1

lemma save_props (s : Store) (key : String) (P : List PropIn) :
    (save_query_and_properties s key P).props
      = (P.map toRow).foldl upsertProp (insertQuery s key).props :=
  (foldl_saveStep_fields ((find_cached_query (insertQuery s key) key).getD 0)
    P (insertQuery s key)).2.2.1

lemma save_links (s : Store) (key : String) (P : List PropIn) :
    (save_query_and_properties s key P).links
      = (P.map (fun p => toString p.id)).foldl
          (fun l pid => insertLink l
            ((find_cached_query (insertQuery s key) key).getD 0) pid)
          (insertQuery s key).links :=
  (foldl_saveStep_fields ((find_cached_query (insertQuery s key) key).getD 0)
    P (insertQuery s key)).2.2.2

/-- C5: `save` is idempotent — saving the same key and property list twice
in succession leaves the store exactly as one save does: the second call
adds no QueryRecord, re-saving the already-linked pairs is a no-op, and the
property rows keep the latest values from the list. -/
theorem c5_save_idempotent (s : Store) (key : String) (P : List PropIn) :
    save_query_and_properties (save_query_and_properties s key P) key P
      = save_query_and_properties s key P := by
  have hpresent : (save_query_and_properties s key P).queries.any
      (fun q => q.2 == key) = true := by
    rw [save_queries]
    exact insertQuery_has s key
  have h2 : insertQuery (save_query_and_properties s key P) key
      = save_query_and_properties s key P :=
    insertQuery_of_present _ _ hpresent
  have h3 : find_cached_query (save_query_and_properties s key P) key
      = find_cached_query (insertQuery s key) key := by
    unfold find_cached_query
    rw [save_queries]
  show P.foldl
      (saveStep ((find_cached_query
        (insertQuery (save_query_and_properties s key P) key) key).getD 0))
      (insertQuery (save_query_and_properties s key P) key)
    = save_query_and_properties s key P
  rw [h2, h3]
  obtain ⟨hBq, hBn, hBp, hBl⟩ := foldl_saveStep_fields
    ((find_cached_query (insertQuery s key) key).getD 0) P
    (save_query_and_properties s key P)
  apply store_eq_of_fields
  · rw [hBq]
  · rw [hBp, save_props, foldl_upsertProp_idem]
  · rw [hBl, save_links]
    apply foldl_insertLink_of_all_mem
    intro pid hpid
    rw [← save_links]
    rw [save_links]
    exact mem_foldl_insertLink_self _ _ _ hpid
  · rw [hBn]

/-! ## FetchOrchestrator — `search_properties` (test_prop.py lines 26-111) -/

/-- Python `dict(row)` with the image-URL column split back into a list
(database.py lines 176-183). -/
def fetchRow (r : PropRow) : FetchedProp :=
  ⟨r.id, r.fields, deserializeImageUrls r.all_image_urls⟩

/-- SQLite BINARY collation on TEXT values: byte-wise comparison of the
UTF-8 encodings, which coincides with code-point comparison because UTF-8
preserves code-point order. -/
def strLE (a b : String) : Bool := lexLE a.data b.data

/-- Insertion into a junction-row list sorted by property-id text. -/
def insertOrderedLink (p : Nat × String) :
    List (Nat × String) → List (Nat × String)
  | [] => [p]
  | q :: rest =>
    if strLE p.2 q.2 then p :: q :: rest else q :: insertOrderedLink p rest

/-- The order in which the covering index `UNIQUE(query_id, property_id)`
yields one query's junction rows: ascending property-id text. -/
def sortLinksByPid : List (Nat × String) → List (Nat × String)
  | [] => []
  | p :: rest => insertOrderedLink p (sortLinksByPid rest)

/-- Insertion of a string into a list sorted under the BINARY collation. -/
def insertString (s : String) : List String → List String
  | [] => [s]
  | t :: rest => if strLE s t then s :: t :: rest else t :: insertString s rest

/-- Insertion sort of strings under the BINARY collation. -/
def sortStrings : List String → List String
  | [] => []
  | s :: rest => insertString s (sortStrings rest)

/-- Fetch `get_properties_for_query(query_id)` (database.py lines 162-185):
the SELECT joins the query's junction rows to the property rows they
reference (a dangling link joins to nothing) and carries no ORDER BY; the
query planner answers it by scanning the covering index
`UNIQUE(query_id, property_id)`, so the joined rows come back ordered by
property-id text — not in link insertion order. -/
def get_properties_for_query (s : Store) (query_id : Nat) :
    List FetchedProp :=
  ((sortLinksByPid (s.links.filter (fun lk => lk.1 == query_id))).filterMap
    (fun lk => s.props.find? (fun r => r.id == lk.2))).map fetchRow

/-- One lower-bound check of the client-side price filter of the miss path
(test_prop.py lines 98-100): the filter value is compared unconverted, so a
non-int value makes `price < min_price` raise `TypeError` (`.error`). -/
def checkMin (price : Int) : Option FilterVal → Except Unit Bool
  | none => .ok false
  | some (.vint m) => .ok (decide (price < m))
  | some _ => .error ()

/-- The matching upper-bound check (test_prop.py lines 101-103). -/
def checkMax (price : Int) : Option FilterVal → Except Unit Bool
  | none => .ok false
  | some (.vint m) => .ok (decide (price > m))
  | some _ => .error ()

/-- The loop of the client-side price filter (test_prop.py lines 94-104):
once a bound is being applied, a listing with `price is None` is never
appended (the append sits inside `if price is not None`). -/
def priceLoop : List PropIn → Option FilterVal → Option FilterVal →
    Except Unit (List PropIn)
  | [], _, _ => .ok []
  | p :: rest, minp, maxp =>
    match p.fields.price with
    | none => priceLoop rest minp maxp
    | some n =>
      match checkMin n minp with
      | .error e => .error e
      | .ok true => priceLoop rest minp maxp
      | .ok false =>
        match checkMax n maxp with
        | .error e => .error e
        | .ok true => priceLoop rest minp maxp
        | .ok false => (priceLoop rest minp maxp).map (fun t => p :: t)

/-- Step 7 of `search_properties` (test_prop.py lines 88-107): the loop
runs only when some price bound is present. -/
def clientPriceFilter (properties : List PropIn)
    (minp maxp : Option FilterVal) : Except Unit (List PropIn) :=
  match minp, maxp with
  | none, none => .ok properties
  | _, _ => priceLoop properties minp maxp

/-- What a `search_properties` call produced: a paginated page of cached
rows (hit path), the fetched and price-filtered listing dictionaries (miss
path), or an uncaught `TypeError` from the price comparison. -/
inductive SearchOutcome where
  | cached (rows : List FetchedProp)
  | fetched (props : List PropIn)
  | raised
  deriving DecidableEq

/-- Result of one `search_properties` call: the returned value, the store
it left behind, and whether the upstream listing source was invoked. -/
structure SearchResult where
  outcome : SearchOutcome
  store : Store
  calledUpstream : Bool
  deriving DecidableEq

/-- The external ids of a result set, in storage-string form; lets the two
return shapes (live dictionaries vs cached rows) be compared. -/
def outcomeIds : SearchOutcome → List String
  | .cached rows => rows.map (fun r => r.id)
  | .fetched ps => ps.map (fun p => toString p.id)
  | .raised => []

/-- Search `search_properties(filters, page=1, limit=50)` (test_prop.py lines
26-111).  The upstream collaborator `property_finder.property_finder_search`
is abstracted by `upstream` — the listing list it would return;
`calledUpstream` records whether the miss path invoked it.  The
`query`→`location_query` rename (lines 73-74) only shapes the upstream
request and is invisible here; the save is taken on its success path
(`save_with_failure` covers the failing one). -/
def search_properties (upstream : List PropIn) (filters : Filters)
    (page limit : Int) (s : Store) : SearchResult :=
  match find_cached_query s (makeQueryString filters page limit) with
  | some query_id =>
    ⟨.cached (paginateCached (get_properties_for_query s query_id)
        page limit), s, false⟩
  | none =>
    match clientPriceFilter upstream
        (getVal (cleanedKey filters page limit) "min_price")
        (getVal (cleanedKey filters page limit) "max_price") with
    | .ok filtered => ⟨.fetched filtered,
        if upstream.isEmpty then s
        else save_query_and_properties s (makeQueryString filters page limit)
          upstream, true⟩
    | .error _ => ⟨.raised,
        if upstream.isEmpty then s
        else save_query_and_properties s (makeQueryString filters page limit)
          upstream, true⟩

lemma search_properties_hit (upstream : List PropIn) (f : Filters)
    (page limit : Int) (s : Store) (qid : Nat)
    (hhit : find_cached_query s (makeQueryString f page limit) = some qid) :
    search_properties upstream f page limit s =
      ⟨.cached (paginateCached (get_properties_for_query s qid) page limit),
        s, false⟩ := by
  unfold search_properties
  rw [hhit]

lemma search_properties_miss (upstream : List PropIn) (f : Filters)
    (page limit : Int) (s : Store)
    (hmiss : find_cached_query s (makeQueryString f page limit) = none) :
    search_properties upstream f page limit s =
      (match clientPriceFilter upstream
          (getVal (cleanedKey f page limit) "min_price")
          (getVal (cleanedKey f page limit) "max_price") with
      | .ok filtered => ⟨.fetched filtered,
          if upstream.isEmpty then s
          else save_query_and_properties s (makeQueryString f page limit)
            upstream, true⟩
      | .error _ => ⟨.raised,
          if upstream.isEmpty then s
          else save_query_and_properties s (makeQueryString f page limit)
            upstream, true⟩) := by
  unfold search_properties
  rw [hmiss]

lemma clientPriceFilter_nil (minp maxp : Option FilterVal) :
    clientPriceFilter [] minp maxp = .ok [] := by
  unfold clientPriceFilter
  cases minp <;> cases maxp <;> rfl

/-- C10: an empty upstream result is never cached: on a cache miss where
the upstream source returns no listings, `search_properties` writes nothing
— the store comes back untouched — and returns the empty result; a
subsequent call with the identical filters therefore misses again and
re-invokes the upstream source. -/
theorem c10_empty_not_cached (f : Filters) (page limit : Int) (s : Store)
    (upstream2 : List PropIn)
    (hmiss : find_cached_query s (makeQueryString f page limit) = none) :
    search_properties [] f page limit s = ⟨.fetched [], s, true⟩ ∧
    (search_properties upstream2 f page limit s).calledUpstream = true := by
  constructor
  · rw [search_properties_miss [] f page limit s hmiss, clientPriceFilter_nil]
    rfl
  · rw [search_properties_miss upstream2 f page limit s hmiss]
    cases hcf : clientPriceFilter upstream2
        (getVal (cleanedKey f page limit) "min_price")
        (getVal (cleanedKey f page limit) "max_price") with
    | ok filtered => rfl
    | error e => rfl

/-- C10 witness: a fresh store misses, an empty upstream result leaves it
empty, and the next identical call hits upstream again. -/
theorem c10_empty_not_cached_witness :
    search_properties [] [("query", FilterVal.vstr "dubai")] 1 50 emptyStore
      = ⟨.fetched [], emptyStore, true⟩ ∧
    (search_properties [sampleProp] [("query", FilterVal.vstr "dubai")] 1 50
      emptyStore).calledUpstream = true :=
  c10_empty_not_cached [("query", FilterVal.vstr "dubai")] 1 50 emptyStore
    [sampleProp] rfl

/-- Listing fields that are empty except for a price. -/
def fieldsWithPrice (p : Option Int) : PropFields :=
  ⟨none, p, none, none, none, none, none, none, none, none, none, none, none,
    none, none, none⟩

/-- A listing with external id 1 and price 50. -/
def propA : PropIn := ⟨1, fieldsWithPrice (some 50), []⟩

/-- A listing with external id 2 and price 200. -/
def propB : PropIn := ⟨2, fieldsWithPrice (some 200), []⟩

/-- C2 counterexample: the repeated identical search does NOT return the
same result set.  Two independent mechanisms break it.  (a) With
`min_price=100` and an upstream answer of two listings (prices 50 and 200),
the first call saves both rows BEFORE the client-side price filter and
returns only listing 2; the second call is served from the cache with zero
upstream calls but returns BOTH stored rows.  (b) Even without any price
bound, an upstream answer in id order `[2, 1]` is returned as-is by the
first call, while the second call's un-ORDERed join comes back through the
`UNIQUE(query_id, property_id)` index in property-id text order
`["1", "2"]` — same properties, different order. -/
theorem c2_second_call_counterexample :
    (outcomeIds (search_properties [propA, propB]
        [("min_price", FilterVal.vint 100)] 1 50 emptyStore).outcome
      = ["2"] ∧
    (search_properties [propA, propB] [("min_price", FilterVal.vint 100)] 1 50
        (search_properties [propA, propB] [("min_price", FilterVal.vint 100)]
          1 50 emptyStore).store).calledUpstream = false ∧
    outcomeIds (search_properties [propA, propB]
        [("min_price", FilterVal.vint 100)] 1 50
        (search_properties [propA, propB] [("min_price", FilterVal.vint 100)]
          1 50 emptyStore).store).outcome = ["1", "2"]) ∧
    (outcomeIds (search_properties [propB, propA]
        [("query", FilterVal.vstr "dubai")] 1 50 emptyStore).outcome
      = ["2", "1"] ∧
    outcomeIds (search_properties [propB, propA]
        [("query", FilterVal.vstr "dubai")] 1 50
        (search_properties [propB, propA] [("query", FilterVal.vstr "dubai")]
          1 50 emptyStore).store).outcome = ["1", "2"]) := by
  exact ⟨⟨by decide, by decide, by decide⟩, ⟨by decide, by decide⟩⟩

lemma foldl_upsertProp_nil_nodup (rows : List PropRow)
    (h : (rowIds rows).Nodup) : rows.foldl upsertProp [] = rows := by
  induction rows with
  | nil => rfl
  | cons row rest ih =>
    rw [List.foldl_cons, foldl_upsertProp_closed rest (upsertProp [] row)]
    have hnotin : row.id ∉ rowIds rest := by
      have := (List.nodup_cons.mp h).1
      simpa [rowIds] using this
    have hone : (upsertProp [] row).filter
        (fun r => !(rowIds rest).contains r.id) = [row] := by
      show ([row] : List PropRow).filter _ = [row]
      rw [List.filter_cons, List.filter_nil]
      simp [hnotin]
    rw [hone, ih (List.nodup_cons.mp h).2]
    rfl

lemma foldl_insertLink_fresh (qid : Nat) (pids : List String)
    (l : List (Nat × String)) (hnd : pids.Nodup)
    (hfresh : ∀ pid ∈ pids, (qid, pid) ∉ l) :
    pids.foldl (fun acc pid => insertLink acc qid pid) l
      = l ++ pids.map (fun pid => (qid, pid)) := by
  induction pids generalizing l with
  | nil => simp
  | cons pid rest ih =>
    rw [List.foldl_cons,
      show insertLink l qid pid = l ++ [(qid, pid)] from
        if_neg (hfresh pid (List.mem_cons_self _ _))]
    rw [ih (l ++ [(qid, pid)]) (List.nodup_cons.mp hnd).2]
    · simp
    · intro q hq
      rw [List.mem_append, List.mem_singleton]
      rintro (hin | heq)
      · exact hfresh q (List.mem_cons_of_mem _ hq) hin
      · have : q = pid := by injection heq
        exact (List.nodup_cons.mp hnd).1 (this ▸ hq)

lemma insertString_perm (s : String) (l : List String) :
    insertString s l ~ s :: l := by
  induction l with
  | nil => exact Perm.refl _
  | cons t rest ih =>
    unfold insertString
    split
    · exact Perm.refl _
    · exact (ih.cons t).trans (Perm.swap s t rest)

lemma sortStrings_perm (l : List String) : sortStrings l ~ l := by
  induction l with
  | nil => exact Perm.refl _
  | cons s rest ih =>
    exact (insertString_perm s (sortStrings rest)).trans (ih.cons s)

lemma insertOrderedLink_map (qid : Nat) (pid : String) (l : List String) :
    insertOrderedLink (qid, pid) (l.map (fun q => (qid, q)))
      = (insertString pid l).map (fun q => (qid, q)) := by
  induction l with
  | nil => rfl
  | cons t rest ih =>
    show (if strLE pid t then _ else _) = _
    by_cases h : strLE pid t
    · simp only [insertString, if_pos h]
      rfl
    · simp only [insertString, if_neg h]
      rw [List.map_cons, ih]

lemma sortLinksByPid_map (qid : Nat) (l : List String) :
    sortLinksByPid (l.map (fun q => (qid, q)))
      = (sortStrings l).map (fun q => (qid, q)) := by
  induction l with
  | nil => rfl
  | cons s rest ih =>
    show insertOrderedLink (qid, s) (sortLinksByPid (rest.map _))
      = (insertString s (sortStrings rest)).map _
    rw [ih, insertOrderedLink_map]

lemma find?_id_of_mem (rows : List PropRow) (pid : String)
    (h : pid ∈ rowIds rows) :
    ∃ r, rows.find? (fun r2 => r2.id == pid) = some r ∧ r.id = pid := by
  induction rows with
  | nil => simp [rowIds] at h
  | cons row rest ih =>
    by_cases hb : (row.id == pid) = true
    · exact ⟨row, List.find?_cons_of_pos _ hb, eq_of_beq hb⟩
    · have hmem : pid ∈ rowIds rest := by
        rcases List.mem_cons.mp (show pid ∈ row.id :: rowIds rest from h) with
          heq | hm
        · exact absurd (beq_iff_eq.mpr heq.symm) hb
        · exact hm
      obtain ⟨r, hf, hid⟩ := ih hmem
      refine ⟨r, ?_, hid⟩
      have hskip : List.find? (fun r2 => r2.id == pid) (row :: rest)
          = List.find? (fun r2 => r2.id == pid) rest :=
        List.find?_cons_of_neg rest hb
      rw [hskip, hf]

lemma filterMap_find_ids (rows : List PropRow) (pids : List String)
    (h : ∀ pid ∈ pids, pid ∈ rowIds rows) :
    ((pids.filterMap
      (fun pid => rows.find? (fun r2 => r2.id == pid))).map
        (fun r2 => r2.id)) = pids := by
  induction pids with
  | nil => rfl
  | cons pid rest ih =>
    obtain ⟨r, hf, hid⟩ :=
      find?_id_of_mem rows pid (h pid (List.mem_cons_self _ _))
    rw [List.filterMap_cons, hf]
    show (r :: rest.filterMap
        (fun pid => rows.find? (fun r2 => r2.id == pid))).map
          (fun r2 => r2.id) = pid :: rest
    rw [List.map_cons, hid,
      ih (fun q hq => h q (List.mem_cons_of_mem _ hq))]

lemma map_fetchRow_ids (l : List PropRow) :
    (l.map fetchRow).map (fun r => r.id) = l.map (fun r => r.id) := by
  rw [List.map_map]
  rfl

lemma paginate_all {α : Type} (l : List α) (limit : Int) (h0 : 0 ≤ limit)
    (hlen : (l.length : Int) ≤ limit) : paginateCached l 1 limit = l := by
  unfold paginateCached pySlice
  rw [show ((1 : Int) - 1) * limit = 0 by ring,
    show (0 : Int) + limit = limit by ring,
    show pyNormIdx l.length 0 = 0 from by unfold pyNormIdx; norm_num,
    show pyNormIdx l.length limit = l.length from by
      unfold pyNormIdx
      rw [if_neg (by omega)]
      omega,
    List.drop_zero, List.take_length]

lemma find_cached_query_single (qs : String) (st : Store)
    (h : st.queries = [(1, qs)]) : find_cached_query st qs = some 1 := by
  unfold find_cached_query
  rw [h, List.find?_cons_of_pos _ (by simp)]
  rfl

lemma save_emptyStore (qs : String) (P : List PropIn)
    (hids : (P.map (fun p => toString p.id)).Nodup) :
    save_query_and_properties emptyStore qs P =
      ⟨[(1, qs)], P.map toRow,
        (P.map (fun p => toString p.id)).map (fun pid => (1, pid)), 2⟩ := by
  have hins : insertQuery emptyStore qs = ⟨[(1, qs)], [], [], 2⟩ := rfl
  have hrid : rowIds (P.map toRow) = P.map (fun p => toString p.id) := by
    rw [rowIds, List.map_map]
    rfl
  apply store_eq_of_fields
  · rw [save_queries, hins]
  · rw [save_props, hins]
    show (P.map toRow).foldl upsertProp [] = P.map toRow
    exact foldl_upsertProp_nil_nodup (P.map toRow) (by rw [hrid]; exact hids)
  · rw [save_links, hins]
    show (P.map (fun p => toString p.id)).foldl
        (fun l pid => insertLink l
          ((find_cached_query (insertQuery emptyStore qs) qs).getD 0) pid)
        [] = _
    rw [show (find_cached_query (insertQuery emptyStore qs) qs).getD 0 = 1
      from by rw [find_cached_query_single qs _ (by rw [hins])]; rfl]
    rw [foldl_insertLink_fresh 1 _ [] hids (by intro q _ hq; cases hq)]
    rfl
  · rw [save_nextQueryId, hins]

lemma fetch_save_emptyStore (qs : String) (P : List PropIn)
    (hids : (P.map (fun p => toString p.id)).Nodup) :
    get_properties_for_query (save_query_and_properties emptyStore qs P) 1
      = ((sortStrings (P.map (fun p => toString p.id))).filterMap
          (fun pid => (P.map toRow).find?
            (fun r2 => r2.id == pid))).map fetchRow := by
  rw [save_emptyStore qs P hids]
  unfold get_properties_for_query
  have hfilter : (((P.map (fun p => toString p.id)).map
        (fun pid => ((1 : Nat), pid))).filter (fun lk => lk.1 == 1))
      = (P.map (fun p => toString p.id)).map (fun pid => ((1 : Nat), pid)) := by
    rw [List.filter_eq_self]
    intro a ha
    obtain ⟨pid, _, rfl⟩ := List.mem_map.mp ha
    simp
  show ((sortLinksByPid (((P.map (fun p => toString p.id)).map
      (fun pid => ((1 : Nat), pid))).filter (fun lk => lk.1 == 1))).filterMap
        (fun lk => (P.map toRow).find? (fun r => r.id == lk.2))).map fetchRow
    = _
  rw [hfilter, sortLinksByPid_map, List.filterMap_map]
  rfl

/-- C2 (amended): after a first search on an empty cache returned a
non-empty result set, re-issuing the identical filters and page/limit is
served entirely from the cache — zero upstream calls; when no client-side
price bound is among the filters, the upstream ids are distinct and the
results fit within one page, the cached reply represents exactly the same
properties — the same external ids, as a permutation — but in property-id
text order (the order the un-ORDERed join inherits from the
`UNIQUE(query_id, property_id)` index), not necessarily the first call's
order.  Literal result-set equality fails in general — rows are persisted
before the client-side price filter runs, come back in storage form and in
index order, and the cached path paginates (see the counterexample). -/
theorem c2_second_call_cached (upstream upstream2 : List PropIn)
    (f : Filters) (limit : Int)
    (hids : (upstream.map (fun p => toString p.id)).Nodup)
    (hne : upstream ≠ [])
    (hlen : (upstream.length : Int) ≤ limit)
    (hmin : getVal (cleanedKey f 1 limit) "min_price" = none)
    (hmax : getVal (cleanedKey f 1 limit) "max_price" = none) :
    (search_properties upstream2 f 1 limit
        (search_properties upstream f 1 limit emptyStore).store).calledUpstream
      = false ∧
    outcomeIds (search_properties upstream2 f 1 limit
        (search_properties upstream f 1 limit emptyStore).store).outcome
      = sortStrings (outcomeIds
          (search_properties upstream f 1 limit emptyStore).outcome) ∧
    outcomeIds (search_properties upstream2 f 1 limit
        (search_properties upstream f 1 limit emptyStore).store).outcome
      ~ outcomeIds
          (search_properties upstream f 1 limit emptyStore).outcome := by
  have hmiss : find_cached_query emptyStore (makeQueryString f 1 limit)
      = none := rfl
  have hie : upstream.isEmpty = false := by
    cases upstream
    · exact absurd rfl hne
    · rfl
  have h1 : search_properties upstream f 1 limit emptyStore
      = ⟨.fetched upstream,
          save_query_and_properties emptyStore (makeQueryString f 1 limit)
            upstream, true⟩ := by
    rw [search_properties_miss upstream f 1 limit emptyStore hmiss, hmin,
      hmax, hie]
    rfl
  have hfind2 : find_cached_query
      (save_query_and_properties emptyStore (makeQueryString f 1 limit)
        upstream) (makeQueryString f 1 limit) = some 1 :=
    find_cached_query_single _ _
      (by rw [save_emptyStore _ upstream hids])
  have h2 : search_properties upstream2 f 1 limit
      (save_query_and_properties emptyStore (makeQueryString f 1 limit)
        upstream)
      = ⟨.cached (paginateCached (get_properties_for_query
          (save_query_and_properties emptyStore (makeQueryString f 1 limit)
            upstream) 1) 1 limit),
        save_query_and_properties emptyStore (makeQueryString f 1 limit)
          upstream, false⟩ :=
    search_properties_hit upstream2 f 1 limit _ 1 hfind2
  have hstore : (search_properties upstream f 1 limit emptyStore).store
      = save_query_and_properties emptyStore (makeQueryString f 1 limit)
          upstream := by
    rw [h1]
  have hfetch := fetch_save_emptyStore (makeQueryString f 1 limit)
    upstream hids
  have hmem : ∀ pid ∈ sortStrings (upstream.map (fun p => toString p.id)),
      pid ∈ rowIds (upstream.map toRow) := by
    have hrid2 : rowIds (upstream.map toRow)
        = upstream.map (fun p => toString p.id) := by
      rw [rowIds, List.map_map]
      rfl
    intro pid hm
    rw [hrid2]
    exact (sortStrings_perm _).mem_iff.mp hm
  have hidsR := filterMap_find_ids (upstream.map toRow)
    (sortStrings (upstream.map (fun p => toString p.id))) hmem
  have hlenR : ((sortStrings (upstream.map (fun p => toString p.id))).filterMap
      (fun pid => (upstream.map toRow).find?
        (fun r2 => r2.id == pid))).length = upstream.length := by
    have h1l := congrArg List.length hidsR
    rw [List.length_map] at h1l
    rw [h1l, (sortStrings_perm _).length_eq, List.length_map]
  have hpag : paginateCached (((sortStrings
        (upstream.map (fun p => toString p.id))).filterMap
          (fun pid => (upstream.map toRow).find?
            (fun r2 => r2.id == pid))).map fetchRow) 1 limit
      = ((sortStrings (upstream.map (fun p => toString p.id))).filterMap
          (fun pid => (upstream.map toRow).find?
            (fun r2 => r2.id == pid))).map fetchRow := by
    apply paginate_all
    · omega
    · rw [List.length_map, hlenR]
      exact hlen
  refine ⟨?_, ?_, ?_⟩
  · rw [hstore, h2]
  · rw [hstore, h2, h1]
    show (paginateCached (get_properties_for_query
        (save_query_and_properties emptyStore (makeQueryString f 1 limit)
          upstream) 1) 1 limit).map (fun r => r.id)
      = sortStrings (upstream.map (fun p => toString p.id))
    rw [hfetch, hpag, map_fetchRow_ids, hidsR]
  · rw [hstore, h2, h1]
    show (paginateCached (get_properties_for_query
        (save_query_and_properties emptyStore (makeQueryString f 1 limit)
          upstream) 1) 1 limit).map (fun r => r.id)
      ~ upstream.map (fun p => toString p.id)
    rw [hfetch, hpag, map_fetchRow_ids, hidsR]
    exact sortStrings_perm _

/-- C2 witness: with no price bound, two distinct listings delivered
upstream in id order 2, 1 and the default page size, the second identical
call is answered from the cache with no upstream call, carrying the same
two ids as a permutation, in text-sorted order. -/
theorem c2_second_call_cached_witness :
    (search_properties [] [("query", FilterVal.vstr "dubai")] 1 50
        (search_properties [propB, propA]
          [("query", FilterVal.vstr "dubai")] 1 50
          emptyStore).store).calledUpstream = false ∧
    outcomeIds (search_properties [] [("query", FilterVal.vstr "dubai")] 1 50
        (search_properties [propB, propA]
          [("query", FilterVal.vstr "dubai")] 1 50 emptyStore).store).outcome
      = sortStrings (outcomeIds (search_properties [propB, propA]
          [("query", FilterVal.vstr "dubai")] 1 50 emptyStore).outcome) ∧
    outcomeIds (search_properties [] [("query", FilterVal.vstr "dubai")] 1 50
        (search_properties [propB, propA]
          [("query", FilterVal.vstr "dubai")] 1 50 emptyStore).store).outcome
      ~ outcomeIds (search_properties [propB, propA]
          [("query", FilterVal.vstr "dubai")] 1 50 emptyStore).outcome :=
  c2_second_call_cached [propB, propA] [] [("query", FilterVal.vstr "dubai")]
    50 (by decide) (by decide) (by decide) (by decide) (by decide)

end RealEstate
